import Mathlib

/-!
Verification of the SPARK PDF link extractor (src/trial.py).

The Python program is shallowly embedded here.  External collaborators
(the HTTP client, the HTML parser, the two bibliographic APIs and the PDF
reader) are modelled as explicit oracles carried in a `World` record; each
Python function of the `PDFLinkExtractor` class becomes a Lean function
over those oracles.  Regular-expression matching (the `re` module calls)
is implemented directly with the semantics of the concrete patterns used
by the program, over `List Char`.
-/

/- ---------------------------------------------------------------------
   Character classes used by the patterns of trial.py.
   `isWS` models the ASCII part of the `re` class `\s`
   (space, tab, newline, carriage return, vertical tab, form feed).
--------------------------------------------------------------------- -/

def isWS (c : Char) : Bool :=
  c = ' ' || c = '\t' || c = '\n' || c = '\r' || c = Char.ofNat 11 || c = Char.ofNat 12

/-- The character class `[-._;()/:A-Za-z0-9]` of the DOI pattern. -/
def doiBodyChar (c : Char) : Bool :=
  c.isAlpha || c.isDigit ||
    (c = '-' || c = '.' || c = '_' || c = ';' || c = '(' || c = ')' || c = '/' || c = ':')

/-- The characters stripped around matched links: `link.strip(',.()[]')`. -/
def stripChars : List Char := [',', '.', '(', ')', '[', ']']

def isStripChar (c : Char) : Bool := decide (c ∈ stripChars)

/-- Python `str.strip(',.()[]')`: remove those characters at both ends. -/
def stripBoth (l : List Char) : List Char :=
  ((l.dropWhile isStripChar).reverse.dropWhile isStripChar).reverse

/-- Python `str.strip()` (whitespace at both ends). -/
def stripWS (l : List Char) : List Char :=
  ((l.dropWhile isWS).reverse.dropWhile isWS).reverse

/- ---------------------------------------------------------------------
   `re.findall` for the concrete patterns of `extract_links_and_dois`.
   A matcher tries to match one occurrence at the head of the input and
   returns the matched characters plus the rest of the input; `findall`
   scans left to right, non-overlapping, like the `re` module.
--------------------------------------------------------------------- -/

/-- Tail of the three link patterns: `[^\s]+` (one or more non-whitespace
characters, greedy), prefixed by the already-matched literal `lit`. -/
def httpTail (lit : List Char) (r : List Char) : Option (List Char × List Char) :=
  let t := r.takeWhile (fun c => !(isWS c))
  if t.isEmpty then none else some (lit ++ t, r.drop t.length)

/-- Matcher for `https?://[^\s]+` at the head of the input. -/
def matchHttp (cs : List Char) : Option (List Char × List Char) :=
  match cs with
  | 'h' :: 't' :: 't' :: 'p' :: 's' :: ':' :: '/' :: '/' :: r =>
      httpTail ['h', 't', 't', 'p', 's', ':', '/', '/'] r
  | 'h' :: 't' :: 't' :: 'p' :: ':' :: '/' :: '/' :: r =>
      httpTail ['h', 't', 't', 'p', ':', '/', '/'] r
  | _ => none

/-- Matcher for `www\.[^\s]+` at the head of the input. -/
def matchWww (cs : List Char) : Option (List Char × List Char) :=
  match cs with
  | 'w' :: 'w' :: 'w' :: '.' :: r => httpTail ['w', 'w', 'w', '.'] r
  | _ => none

/-- Matcher for `doi\.org/[^\s]+` at the head of the input. -/
def matchDoiOrg (cs : List Char) : Option (List Char × List Char) :=
  match cs with
  | 'd' :: 'o' :: 'i' :: '.' :: 'o' :: 'r' :: 'g' :: '/' :: r =>
      httpTail ['d', 'o', 'i', '.', 'o', 'r', 'g', '/'] r
  | _ => none

/-- Matcher for `10\.\d{4,9}/[-._;()/:A-Za-z0-9]+` at the head of the
input.  `\d{4,9}` followed by `/` succeeds exactly when the maximal digit
run after `10.` has length 4 to 9 and is followed by `/` (shorter,
backtracked digit counts would put a digit where `/` is required). -/
def matchDoi (cs : List Char) : Option (List Char × List Char) :=
  match cs with
  | '1' :: '0' :: '.' :: r =>
      let ds := r.takeWhile (fun c => c.isDigit)
      if 4 ≤ ds.length ∧ ds.length ≤ 9 then
        match r.drop ds.length with
        | '/' :: r3 =>
            let body := r3.takeWhile doiBodyChar
            if body.isEmpty then none
            else some ('1' :: '0' :: '.' :: (ds ++ '/' :: body), r3.drop body.length)
        | _ => none
      else none
  | _ => none

/-- Matcher for `arXiv:\d{4}\.\d{4,5}` at the head of the input (greedy:
five digits after the dot are preferred over four). -/
def matchArxiv (cs : List Char) : Option (List Char × List Char) :=
  match cs with
  | 'a' :: 'r' :: 'X' :: 'i' :: 'v' :: ':' :: d1 :: d2 :: d3 :: d4 :: '.' :: r2 =>
      if d1.isDigit && d2.isDigit && d3.isDigit && d4.isDigit then
        let ds := r2.takeWhile (fun c => c.isDigit)
        if 5 ≤ ds.length then
          some (['a', 'r', 'X', 'i', 'v', ':', d1, d2, d3, d4, '.'] ++ ds.take 5, r2.drop 5)
        else if ds.length = 4 then
          some (['a', 'r', 'X', 'i', 'v', ':', d1, d2, d3, d4, '.'] ++ ds, r2.drop 4)
        else none
      else none
  | _ => none

/-- Left-to-right, non-overlapping scan, as `re.findall` performs it.
The fuel starts at the length of the input; every match consumes at least
one character, so the fuel never runs out before the input does. -/
def findallAux (m : List Char → Option (List Char × List Char)) :
    Nat → List Char → List (List Char)
  | 0, _ => []
  | _ + 1, [] => []
  | fuel + 1, c :: cs =>
      match m (c :: cs) with
      | some (mt, rest) => mt :: findallAux m fuel rest
      | none => findallAux m fuel cs

def findall (m : List Char → Option (List Char × List Char)) (cs : List Char) :
    List (List Char) :=
  findallAux m cs.length cs

/-- `extract_links_and_dois` of trial.py.  The Python function returns
`list(set(...))` whose order is unspecified; duplicates are removed here
with `List.dedup`. -/
def extract_links_and_dois (text : String) : List String × List String × List String :=
  let cs := text.data
  let rawLinks := findall matchHttp cs ++ findall matchWww cs ++ findall matchDoiOrg cs
  let links := ((rawLinks.map stripBoth).map String.mk).dedup
  let dois := ((findall matchDoi cs).map String.mk).dedup
  let arxivIds := ((findall matchArxiv cs).map String.mk).dedup
  (links, dois, arxivIds)

/-- Decision procedure for a full match of the DOI pattern
`10\.\d{4,9}/[-._;()/:A-Za-z0-9]+` against a whole string: literal `10.`,
a digit run of length 4 to 9, `/`, then a non-empty remainder made of
characters of the class. -/
def doiShape (cs : List Char) : Bool :=
  match cs with
  | '1' :: '0' :: '.' :: r =>
      let ds := r.takeWhile (fun c => c.isDigit)
      (4 ≤ ds.length && ds.length ≤ 9) &&
        (match r.drop ds.length with
         | '/' :: body => !body.isEmpty && body.all doiBodyChar
         | _ => false)
  | _ => false

/- ---------------------------------------------------------------------
   Python string helpers used by the resolver functions, implemented
   over `List Char` so that they evaluate inside the kernel.
--------------------------------------------------------------------- -/

/-- Python `sub in s` (substring test). -/
def containsSubL (lit : List Char) : List Char → Bool
  | [] => lit.isEmpty
  | c :: cs => lit.isPrefixOf (c :: cs) || containsSubL lit cs

def containsSub (s sub : String) : Bool := containsSubL sub.data s.data

/-- Python `s.startswith(pre)`. -/
def pyStarts (s pre : String) : Bool := pre.data.isPrefixOf s.data

/-- Python `s.split(sep)` for a single-character separator. -/
def splitOnChar (sep : Char) : List Char → List (List Char)
  | [] => [[]]
  | c :: cs =>
      let r := splitOnChar sep cs
      if c = sep then [] :: r
      else (c :: r.headD []) :: r.tail

/-- Python `s.split(sep)[-1]`. -/
def lastPart (s : String) (sep : Char) : String :=
  String.mk ((splitOnChar sep s.data).getLastD s.data)

/-- Python `s.replace(pat, repl)` (all non-overlapping occurrences, left
to right); the patterns used by trial.py are non-empty. -/
def replaceL (pat repl : List Char) : Nat → List Char → List Char
  | 0, cs => cs
  | _ + 1, [] => []
  | fuel + 1, c :: cs =>
      if pat ≠ [] ∧ pat.isPrefixOf (c :: cs) then
        repl ++ replaceL pat repl fuel ((c :: cs).drop pat.length)
      else c :: replaceL pat repl fuel cs

def pyReplace (s pat repl : String) : String :=
  String.mk (replaceL pat.data repl.data s.data.length s.data)

/-- Python `s.strip()`. -/
def pyStrip (s : String) : String := String.mk (stripWS s.data)

/-- Python `s[:n]` (first `n` characters). -/
def strTake (s : String) (n : Nat) : String := String.mk (s.data.take n)

/- ---------------------------------------------------------------------
   The external world: HTTP responses, parsed HTML documents, and the
   two bibliographic APIs.  BeautifulSoup is an external collaborator,
   so a fetched page is modelled by the results of the only queries the
   program makes against the parsed tree.
--------------------------------------------------------------------- -/

/-- A located HTML tag: its `content` attribute (if any) and its text,
the two things `candidate.get('content', candidate.text)` can select. -/
structure TagNode where
  content : Option String
  text : String
deriving Repr, DecidableEq

/-- A parsed HTML document, restricted to the queries trial.py makes:
the first matching meta description tag, abstract-classed div and p,
the document title tag, and the arXiv title/abstract elements. -/
structure PageDoc where
  metaDesc : Option TagNode
  absDiv : Option TagNode
  absP : Option TagNode
  titleTag : Option String
  arxivTitleTag : Option String
  arxivAbstractTag : Option String
deriving Repr, DecidableEq

/-- Result of one `requests.get`: an exception, or a status plus body. -/
inductive FetchResult where
  | exn : FetchResult
  | resp : Nat → PageDoc → FetchResult
deriving Repr, DecidableEq

/-- The oracles for the external services the program talks to.
`get` models `requests.get` with the browser-like headers, `getArxiv`
the header-less fetch of the arXiv scraper; the API fields yield `none`
for a request/parse exception, otherwise the status code and the list of
result items, each reduced to its optional abstract field. -/
structure World where
  get : String → FetchResult
  getArxiv : String → FetchResult
  crossref : String → Option (Nat × List (Option String))
  semantic : String → Option (Nat × List (Option String))

/- ---------------------------------------------------------------------
   The resolver functions of trial.py.
--------------------------------------------------------------------- -/

/-- `candidate.get('content', candidate.text)`. -/
def candidateValue (t : TagNode) : String := t.content.getD t.text

/-- The candidate loop of `extract_abstract_from_url`: return the first
candidate whose value is truthy and longer than 50 characters, stripped;
otherwise the sentinel. -/
def firstCandidate : List (Option TagNode) → String
  | [] => "Abstract not found"
  | none :: rest => firstCandidate rest
  | some t :: rest =>
      let a := candidateValue t
      if a ≠ "" ∧ 50 < a.length then pyStrip a else firstCandidate rest

/-- `extract_abstract_from_url` of trial.py. -/
def extract_abstract_from_url (w : World) (url : String) : String :=
  match w.get url with
  | .exn => "Abstract extraction failed"
  | .resp status page =>
      if status ≠ 200 then "Abstract not available"
      else firstCandidate [page.metaDesc, page.absDiv, page.absP]

/-- `extract_abstract_from_arxiv` of trial.py.  `raise_for_status`
raises for 4xx/5xx responses, which the handler turns into the
retrieval-error sentinels. -/
def extract_abstract_from_arxiv (w : World) (url : String) : String × String :=
  match w.getArxiv url with
  | .exn => ("Title retrieval error", "Abstract retrieval error")
  | .resp status page =>
      if 400 ≤ status then ("Title retrieval error", "Abstract retrieval error")
      else
        let t :=
          match page.arxivTitleTag with
          | some tt => pyStrip (pyReplace tt "Title:" "")
          | none => "Title not available"
        let a :=
          match page.arxivAbstractTag with
          | some ab => pyStrip (pyReplace ab "Abstract:" "")
          | none => "Abstract not available"
        (t, a)

/-- First truthy abstract field of the first item of an API result list
(`works[0].get('abstract')` guarded by `if works:` and `if abstract:`). -/
def apiFirstAbstract (items : List (Option String)) : Option String :=
  match items with
  | [] => none
  | first :: _ =>
      match first with
      | some a => if a ≠ "" then some a else none
      | none => none

/-- `extract_abstract_alternative` of trial.py: Crossref then Semantic
Scholar; any request exception is caught by the surrounding handler and
becomes `"Abstract extraction failed"`. -/
def extract_abstract_alternative (w : World) (title : String) : String :=
  match w.crossref title with
  | none => "Abstract extraction failed"
  | some (st, works) =>
      match (if st = 200 then apiFirstAbstract works else none) with
      | some a => a
      | none =>
          match w.semantic title with
          | none => "Abstract extraction failed"
          | some (st2, papers) =>
              match (if st2 = 200 then apiFirstAbstract papers else none) with
              | some a => a
              | none => "Abstract not found through APIs"

/-- `extract_title_from_url` of trial.py. -/
def extract_title_from_url (w : World) (url : String) : String :=
  if containsSub url "arxiv.org" then
    let arxiv_id := lastPart url '/'
    let ta := extract_abstract_from_arxiv w url
    if ta.1 ≠ "Title not available" then ta.1 else "ArXiv Paper ID: " ++ arxiv_id
  else if containsSub url "doi.org" then
    let title := extract_abstract_alternative w url
    if title ≠ "Abstract extraction failed" then title
    else "DOI Reference: " ++ lastPart url '/'
  else
    match w.get url with
    | .exn => "Unknown Title"
    | .resp status page =>
        if status = 200 then
          match page.titleTag with
          | some t => if pyStrip t ≠ "" then pyStrip t else lastPart url '/'
          | none => lastPart url '/'
        else lastPart url '/'

/- ---------------------------------------------------------------------
   `extract_abstract_from_text`: the in-document heuristic.  The two
   patterns are implemented with the semantics the `re` module gives
   them under IGNORECASE | MULTILINE | DOTALL.
--------------------------------------------------------------------- -/

/-- Case-insensitive literal test at the head of the input
(`lit` is given in lower case). -/
def ciPref (lit : List Char) (l : List Char) : Bool :=
  ((l.take lit.length).map Char.toLower) == lit

/-- After `Abstract[:.]?\s*`, the lazy group `(.+?)(?=\n\n|\n[A-Z]|$)`:
with MULTILINE, `$` matches before any newline, so the group is the
shortest non-empty prefix after which a newline or the end follows.
When `\s*` greedily reaches the end of input, it backtracks one
character so the group can hold that final whitespace character. -/
def wsThenGroup (r : List Char) : Option (List Char) :=
  match r.dropWhile isWS with
  | b :: bs => some (b :: bs.takeWhile (fun c => !(c = '\n')))
  | [] =>
      match r.getLast? with
      | some c => some [c]
      | none => none

/-- One attempt of pattern `Abstract[:.]?\s*(.+?)(?=...)` just after the
literal `Abstract`: the optional `[:.]` is greedy but backtracks when
nothing is left for the group. -/
def pat1At (r : List Char) : Option (List Char) :=
  match r with
  | c :: r1 =>
      if c = ':' || c = '.' then
        match wsThenGroup r1 with
        | some g => some g
        | none => wsThenGroup r
      else wsThenGroup r
  | [] => none

/-- First match of pattern 1, scanning positions left to right. -/
def pat1Scan : List Char → Option (List Char)
  | [] => none
  | c :: cs =>
      if ciPref "abstract".data (c :: cs) then
        match pat1At ((c :: cs).drop 8) with
        | some g => some g
        | none => pat1Scan cs
      else pat1Scan cs

/-- Position starts the word `Introduction` or `References`
(IGNORECASE). -/
def badAt (l : List Char) : Bool :=
  ciPref "introduction".data l || ciPref "references".data l

/-- Greedy `(?:(?!Introduction|References)[\s\S]){n}` run, up to `n`
characters. -/
def run2 : Nat → List Char → List Char
  | 0, _ => []
  | _ + 1, [] => []
  | n + 1, c :: cs => if badAt (c :: cs) then [] else c :: run2 n cs

/-- First match of pattern 2: the first position whose run of
non-excluded characters reaches length 50 (capped at 500). -/
def pat2Scan : List Char → Option (List Char)
  | [] => none
  | c :: cs =>
      let g := run2 500 (c :: cs)
      if 50 ≤ g.length then some g else pat2Scan cs

/-- `re.sub(r'\s+', ' ', s)`. -/
def collapseWSAux : Bool → List Char → List Char
  | _, [] => []
  | prevWS, c :: cs =>
      if isWS c then
        if prevWS then collapseWSAux true cs else ' ' :: collapseWSAux true cs
      else c :: collapseWSAux false cs

def collapseWS (l : List Char) : List Char := collapseWSAux false l

/-- Cleaning applied to a matched group: collapse whitespace runs, then
strip. -/
def cleanGroup (g : List Char) : List Char := stripWS (collapseWS g)

def tryPat2 (cs : List Char) : String :=
  match pat2Scan cs with
  | some g =>
      let a := cleanGroup g
      if 50 < a.length then String.mk a else "No abstract found in text"
  | none => "No abstract found in text"

/-- `extract_abstract_from_text` of trial.py. -/
def extract_abstract_from_text (text : String) : String :=
  match pat1Scan text.data with
  | some g =>
      let a := cleanGroup g
      if 50 < a.length then String.mk a else tryPat2 text.data
  | none => tryPat2 text.data

/- ---------------------------------------------------------------------
   `process_links_and_dois`.  The Python loop body reuses the variables
   `title` and `abstract` across iterations: a source matching none of
   the dispatch branches reads whatever the previous iteration left in
   them, and raises NameError (caught by the per-source handler) when
   they were never bound.  The state passed along the fold is
   `Option (String × String)`: the current values of `(title, abstract)`,
   or `none` when they are still unbound.
--------------------------------------------------------------------- -/

/-- Metadata record stored per source: the `title`/`abstract` keys of
the Python dict. -/
structure MetaRec where
  title : String
  abstract : String
deriving Repr, DecidableEq

/-- The two `if not abstract:` fallback steps at the end of the loop
body, plus the store of the record; returns the record together with the
final values of the loop variables. -/
def fallbackSteps (w : World) (text source title abstract : String) :
    MetaRec × Option (String × String) :=
  let ta :=
    if abstract = "" then
      let t2 := extract_title_from_url w source
      (t2, extract_abstract_alternative w t2)
    else (title, abstract)
  let a2 := if ta.2 = "" then extract_abstract_from_text text else ta.2
  (⟨ta.1, a2⟩, some (ta.1, a2))

/-- One iteration of the `process_links_and_dois` loop over `source`. -/
def processSource (w : World) (text : String) (prev : Option (String × String))
    (source : String) : MetaRec × Option (String × String) :=
  if pyStarts source "arXiv:" then
    let url := "https://arxiv.org/abs/" ++ lastPart source ':'
    let ta := extract_abstract_from_arxiv w url
    fallbackSteps w text source ta.1 ta.2
  else if containsSub source "arxiv.org" then
    let ta := extract_abstract_from_arxiv w source
    fallbackSteps w text source ta.1 ta.2
  else if pyStarts source "http" || pyStarts source "doi.org" || pyStarts source "www." then
    let a := extract_abstract_from_url w source
    let t := extract_title_from_url w source
    fallbackSteps w text source t a
  else
    match prev with
    | some tp => fallbackSteps w text source tp.1 tp.2
    | none => (⟨"Unknown Title", "Failed to get Abstract"⟩, none)

/-- Assignment `self.metadata[source] = ...` on the insertion-ordered
dict: replace in place when the key exists, append otherwise. -/
def dictInsert : List (String × MetaRec) → String → MetaRec → List (String × MetaRec)
  | [], k, v => [(k, v)]
  | (k1, v1) :: rest, k, v =>
      if k1 = k then (k1, v) :: rest else (k1, v1) :: dictInsert rest k v

def processAll (w : World) (text : String) :
    List String → Option (String × String) → List (String × MetaRec) →
    List (String × MetaRec)
  | [], _, md => md
  | s :: rest, st, md =>
      let r := processSource w text st s
      processAll w text rest r.2 (dictInsert md s r.1)

/-- `process_links_and_dois` of trial.py, returning the metadata dict
(iterating `list(links) + list(dois) + list(arxiv_ids)`). -/
def process_links_and_dois (w : World) (text : String)
    (links dois arxiv_ids : List String) : List (String × MetaRec) :=
  processAll w text (links ++ dois ++ arxiv_ids) none []

/- ---------------------------------------------------------------------
   Report rendering and the workflow.
--------------------------------------------------------------------- -/

/-- `extract_text_from_pdf`: the page texts when the PDF library
succeeds, an empty string when it raises. -/
def extract_text_from_pdf (pdfRead : Option (List String)) : String :=
  match pdfRead with
  | some pages => String.join pages
  | none => ""

/-- The source part of a PDF report line:
`source[:100] + '...' if len(source) > 100 else source`. -/
def truncatedSource (source : String) : String :=
  if 100 < source.length then strTake source 100 ++ "..." else source

/-- One entry of the output PDF: the source cell and the abstract
multi-cell (`f"Abstract: {abstract[:500]}..."`). -/
def pdfRow (idx : Nat) (source : String) (info : MetaRec) : String × String :=
  (toString idx ++ ". Source: " ++ truncatedSource source,
   "Abstract: " ++ strTake info.abstract 500 ++ "...")

/-- `create_output_pdf`: `none` models the skipped generation when the
metadata dict is empty; otherwise the list of rendered entries. -/
def create_output_pdf (md : List (String × MetaRec)) : Option (List (String × String)) :=
  if md.isEmpty then none
  else some (md.enum.map (fun p => pdfRow (p.1 + 1) p.2.1 p.2.2))

/-- One row of the HTML table: index, the Name of the Paper cell (which
the code recomputes with `extract_title_from_url(source)`), the Abstract
cell (`f"{abstract[:500]}..."`), and the link target of the anchor. -/
def htmlRow (w : World) (idx : Nat) (source : String) (info : MetaRec) :
    Nat × String × String × String :=
  (idx, extract_title_from_url w source, strTake info.abstract 500 ++ "...", source)

/-- `create_output_html`: `none` models the skipped generation when the
metadata dict is empty; otherwise the rows of the generated table. -/
def create_output_html (w : World) (md : List (String × MetaRec)) :
    Option (List (Nat × String × String × String)) :=
  if md.isEmpty then none
  else some (md.enum.map (fun p => htmlRow w (p.1 + 1) p.2.1 p.2.2))

/-- The `workflow` method: extract text, extract references, resolve,
render both reports. -/
def workflow (w : World) (pdfRead : Option (List String)) :
    Option (List (String × String)) × Option (List (Nat × String × String × String)) :=
  let text := extract_text_from_pdf pdfRead
  let e := extract_links_and_dois text
  let md := process_links_and_dois w text e.1 e.2.1 e.2.2
  (create_output_pdf md, create_output_html w md)

/- ---------------------------------------------------------------------
   Concrete worlds used by counterexamples and witnesses.
--------------------------------------------------------------------- -/

/-- A page with no abstract candidates and no title tag. -/
def pageEmpty : PageDoc := ⟨none, none, none, none, none, none⟩

/-- Every network call raises and both APIs raise. -/
def wFail : World := ⟨fun _ => .exn, fun _ => .exn, fun _ => none, fun _ => none⟩

/-- Every generic fetch yields a 200 response with no candidates. -/
def wNoCand : World := ⟨fun _ => .resp 200 pageEmpty, fun _ => .exn, fun _ => none, fun _ => none⟩

/-- A page whose only candidate is a short meta description. -/
def pageMeta : PageDoc := { pageEmpty with metaDesc := some ⟨some "A study of X.", ""⟩ }

def wMeta : World := ⟨fun _ => .resp 200 pageMeta, fun _ => .exn, fun _ => none, fun _ => none⟩

/-- An arXiv abstract page with a real title and abstract. -/
def pageArxiv : PageDoc :=
  { pageEmpty with arxivTitleTag := some "Real Paper Title",
                   arxivAbstractTag := some "An abstract." }

def wArxiv : World := ⟨fun _ => .exn, fun _ => .resp 200 pageArxiv, fun _ => none, fun _ => none⟩

/- ---------------------------------------------------------------------
   Dictionary and processing-loop lemmas.
--------------------------------------------------------------------- -/

theorem lookup_dictInsert (md : List (String × MetaRec)) (k : String) (v : MetaRec)
    (s : String) :
    (dictInsert md k v).lookup s = if s = k then some v else md.lookup s := by
  induction md with
  | nil =>
      by_cases h : s = k
      · simp [dictInsert, List.lookup, h]
      · have hb : (s == k) = false := beq_eq_false_iff_ne.mpr h
        simp [dictInsert, List.lookup, h, hb]
  | cons p rest ih =>
      obtain ⟨k1, v1⟩ := p
      by_cases h1 : k1 = k
      · subst h1
        by_cases h2 : s = k1
        · simp [dictInsert, List.lookup, h2]
        · have hb : (s == k1) = false := beq_eq_false_iff_ne.mpr h2
          simp [dictInsert, List.lookup, h2, hb]
      · by_cases h2 : s = k1
        · subst h2
          have hsk : s ≠ k := fun e => h1 (e.symm ▸ rfl)
          simp [dictInsert, List.lookup, h1, hsk]
        · have hb : (s == k1) = false := beq_eq_false_iff_ne.mpr h2
          simp [dictInsert, List.lookup, h1, hb, ih]

theorem processAll_lookup_notmem (w : World) (text : String) :
    ∀ (sources : List String) (st : Option (String × String))
      (md : List (String × MetaRec)) (s : String), s ∉ sources →
      (processAll w text sources st md).lookup s = md.lookup s := by
  intro sources
  induction sources with
  | nil => intro st md s _; rfl
  | cons a rest ih =>
      intro st md s h
      have hne : s ≠ a := fun e => h (e ▸ List.mem_cons_self a rest)
      have hnr : s ∉ rest := fun e => h (List.mem_cons_of_mem a e)
      simp only [processAll]
      rw [ih _ _ s hnr, lookup_dictInsert]
      simp [hne]

theorem processAll_lookup_total (w : World) (text : String) :
    ∀ (sources : List String) (st : Option (String × String))
      (md : List (String × MetaRec)) (s : String),
      (s ∈ sources ∨ ∃ r, md.lookup s = some r) →
      ∃ r, (processAll w text sources st md).lookup s = some r := by
  intro sources
  induction sources with
  | nil =>
      intro st md s h
      rcases h with h | h
      · exact absurd h (List.not_mem_nil s)
      · exact h
  | cons a rest ih =>
      intro st md s h
      simp only [processAll]
      apply ih
      by_cases hs : s ∈ rest
      · exact Or.inl hs
      · right
        by_cases he : s = a
        · exact ⟨(processSource w text st a).1, by rw [lookup_dictInsert]; simp [he]⟩
        · rcases h with h | ⟨r, hr⟩
          · rcases List.mem_cons.mp h with he2 | hm
            · exact absurd he2 he
            · exact absurd hm hs
          · exact ⟨r, by rw [lookup_dictInsert]; simp [he, hr]⟩

/- ---------------------------------------------------------------------
   Claims C1 - C4: the processing loop.
--------------------------------------------------------------------- -/

/-- Claim C1, counterexample: when the generic webpage scrape yields the
sentinel `"Abstract not found"` (here: a 200 response with no abstract
candidates), the loop records that sentinel as the final abstract — the
later stages are not attempted, because the code only tests `not abstract`
(emptiness), never the sentinels. -/
theorem c1_sentinel_kept_counterexample :
    extract_abstract_from_url wNoCand "https://example.com" = "Abstract not found" ∧
    (process_links_and_dois wNoCand "" ["https://example.com"] [] []).lookup
        "https://example.com" =
      some ⟨"example.com", "Abstract not found"⟩ := by
  decide

/-- Claim C1, amended: later stages run only when the abstract obtained so
far is the empty string; whenever the generic webpage scrape returns any
non-empty string — its sentinels included — that exact string is recorded
as the final abstract of a `http`/`doi.org`/`www.`-dispatched source, and
the bibliographic-API and in-document stages are skipped. -/
theorem c1_stage_one_result_recorded (w : World) (text : String)
    (prev : Option (String × String)) (source : String)
    (h1 : pyStarts source "arXiv:" = false)
    (h2 : containsSub source "arxiv.org" = false)
    (h3 : (pyStarts source "http" || pyStarts source "doi.org" ||
           pyStarts source "www.") = true)
    (h4 : extract_abstract_from_url w source ≠ "") :
    (processSource w text prev source).1 =
      ⟨extract_title_from_url w source, extract_abstract_from_url w source⟩ := by
  simp only [processSource, h1, h2, h3]
  simp [fallbackSteps, h4]

theorem c1_stage_one_result_recorded_witness :
    (processSource wNoCand "" none "https://example.com").1 =
      ⟨extract_title_from_url wNoCand "https://example.com",
       extract_abstract_from_url wNoCand "https://example.com"⟩ :=
  c1_stage_one_result_recorded wNoCand "" none "https://example.com"
    (by decide) (by decide) (by decide) (by decide)

/-- Claim C2, counterexample: a reference for which every resolution stage
fails (every HTTP request raises, both APIs raise) is stored with the
failing stage's own sentinel `"Abstract extraction failed"`, not with
`"Failed to get Abstract"`: the stages catch their own exceptions, so the
per-source handler that writes that pair never fires for a dispatched
source. -/
theorem c2_all_fail_sentinel_counterexample :
    (process_links_and_dois wFail "" ["https://x.com"] [] []).lookup "https://x.com" =
      some ⟨"Unknown Title", "Abstract extraction failed"⟩ ∧
    ("Abstract extraction failed" : String) ≠ "Failed to get Abstract" := by
  decide

/-- Claim C2, amended: the record `{title: "Unknown Title", abstract:
"Failed to get Abstract"}` is produced by the per-source exception handler,
which fires when a reference matches no dispatch branch while the loop
variables are still unbound (NameError) — e.g. a bare DOI processed before
any dispatched reference; the batch still continues, every later reference
receiving a record. -/
theorem c2_exception_path_record (w : World) (text source : String)
    (rest : List String)
    (h1 : pyStarts source "arXiv:" = false)
    (h2 : containsSub source "arxiv.org" = false)
    (h3 : (pyStarts source "http" || pyStarts source "doi.org" ||
           pyStarts source "www.") = false)
    (h4 : source ∉ rest) :
    (process_links_and_dois w text [] (source :: rest) []).lookup source =
      some ⟨"Unknown Title", "Failed to get Abstract"⟩ ∧
    ∀ s ∈ rest, ∃ r : MetaRec,
      (process_links_and_dois w text [] (source :: rest) []).lookup s = some r := by
  have hps : processSource w text none source =
      (⟨"Unknown Title", "Failed to get Abstract"⟩, none) := by
    simp [processSource, h1, h2, h3]
  constructor
  · simp only [process_links_and_dois, List.nil_append, List.append_nil]
    simp only [processAll, hps]
    rw [processAll_lookup_notmem w text rest none _ source h4]
    simp [dictInsert, List.lookup]
  · intro s hs
    apply processAll_lookup_total
    exact Or.inl (by simp [hs])

theorem c2_exception_path_record_witness :
    (process_links_and_dois wFail "" [] ["10.1000/xyz123", "arXiv:2301.01234"] []).lookup
        "10.1000/xyz123" =
      some ⟨"Unknown Title", "Failed to get Abstract"⟩ ∧
    ∀ s ∈ ["arXiv:2301.01234"], ∃ r : MetaRec,
      (process_links_and_dois wFail "" [] ["10.1000/xyz123", "arXiv:2301.01234"] []).lookup
          s = some r :=
  c2_exception_path_record wFail "" "10.1000/xyz123" ["arXiv:2301.01234"]
    (by decide) (by decide) (by decide) (by decide)

/-- Claim C3, counterexample: the record stored for the bare DOI
`"10.1000/xyz123"` depends on which references precede it in the batch.
Alone, it gets the exception-handler pair; after a processed link it
inherits the loop variables left by that link. -/
theorem c3_batch_dependence_counterexample :
    (process_links_and_dois wFail "" [] ["10.1000/xyz123"] []).lookup "10.1000/xyz123" ≠
    (process_links_and_dois wFail "" ["https://x.com"] ["10.1000/xyz123"] []).lookup
        "10.1000/xyz123" := by
  decide

/-- Claim C3, amended: per-reference resolution is batch-independent only
for references matching a dispatch branch (`arXiv:` prefix, `arxiv.org`
substring, or `http`/`doi.org`/`www.` prefix): for those the loop body
never reads the variables left by earlier iterations.  A reference
matching no branch (e.g. a bare DOI) reads them, so its record depends on
the batch prefix. -/
theorem c3_dispatched_independent (w : World) (text : String)
    (prev1 prev2 : Option (String × String)) (source : String)
    (h : pyStarts source "arXiv:" = true ∨ containsSub source "arxiv.org" = true ∨
         (pyStarts source "http" || pyStarts source "doi.org" ||
          pyStarts source "www.") = true) :
    (processSource w text prev1 source).1 = (processSource w text prev2 source).1 := by
  by_cases c1 : pyStarts source "arXiv:" = true
  · simp [processSource, c1]
  · by_cases c2 : containsSub source "arxiv.org" = true
    · simp [processSource, c1, c2]
    · by_cases c3 : (pyStarts source "http" || pyStarts source "doi.org" ||
          pyStarts source "www.") = true
      · simp [processSource, c1, c2, c3]
      · rcases h with h | h | h <;> simp_all

theorem c3_dispatched_independent_witness :
    (processSource wFail "" none "https://x.com").1 =
      (processSource wFail "" (some ("T", "A")) "https://x.com").1 :=
  c3_dispatched_independent wFail "" none (some ("T", "A")) "https://x.com"
    (Or.inr (Or.inr (by decide)))

/-- Claim C4: after processing, the metadata dict holds a record — with
both a title and an abstract string — for every reference in the
concatenation of the extracted links, DOIs and arXiv ids, whatever the
network behaviour. -/
theorem c4_metadata_total (w : World) (text : String)
    (links dois arxiv_ids : List String) (s : String)
    (h : s ∈ links ++ dois ++ arxiv_ids) :
    ∃ r : MetaRec,
      (process_links_and_dois w text links dois arxiv_ids).lookup s = some r :=
  processAll_lookup_total w text _ none [] s (Or.inl h)

theorem c4_metadata_total_witness :
    ∃ r : MetaRec,
      (process_links_and_dois wFail "" [] [] ["arXiv:2301.01234"]).lookup
          "arXiv:2301.01234" = some r :=
  c4_metadata_total wFail "" [] [] ["arXiv:2301.01234"] "arXiv:2301.01234" (by decide)

/- ---------------------------------------------------------------------
   Claim C5: the concrete extraction example.
--------------------------------------------------------------------- -/

/-- Claim C5: on the given reference text, extraction yields exactly the
one link, one DOI and one arXiv id stated by the spec. -/
theorem c5_extraction_example :
    extract_links_and_dois
        "See https://example.com/paper.pdf, and DOI 10.1000/xyz123 for details. arXiv:2301.01234 is also relevant." =
      (["https://example.com/paper.pdf"], ["10.1000/xyz123"], ["arXiv:2301.01234"]) := by
  decide

/- ---------------------------------------------------------------------
   Claim C7: the generic webpage scrape on a short meta description.
--------------------------------------------------------------------- -/

/-- Claim C7, counterexample: a 200 response whose only candidate is
`<meta name="description" content="A study of X.">` does NOT return
`"A study of X."`: the candidate loop requires more than 50 characters,
and this content has 13, so the scrape returns `"Abstract not found"`. -/
theorem c7_short_meta_counterexample :
    extract_abstract_from_url wMeta "https://example.com" = "Abstract not found" ∧
    ("Abstract not found" : String) ≠ "A study of X." := by
  decide

/-- Claim C7, amended: for a 200 response whose only candidate is a meta
description with content `c`, the scrape returns the stripped content
exactly when `c` is non-empty and longer than 50 characters, and
`"Abstract not found"` otherwise — in particular `"A study of X."`
(13 characters) yields the sentinel. -/
theorem c7_meta_description_threshold (w : World) (url : String) (page : PageDoc)
    (t c : String)
    (hget : w.get url = .resp 200 page)
    (hmeta : page.metaDesc = some ⟨some c, t⟩)
    (hdiv : page.absDiv = none) (hp : page.absP = none) :
    extract_abstract_from_url w url =
      if c ≠ "" ∧ 50 < c.length then pyStrip c else "Abstract not found" := by
  unfold extract_abstract_from_url
  rw [hget]
  by_cases hc : c ≠ "" ∧ 50 < c.length <;>
    simp [firstCandidate, candidateValue, hmeta, hdiv, hp, hc]

theorem c7_meta_description_threshold_witness :
    extract_abstract_from_url wMeta "https://example.com" =
      if ("A study of X." : String) ≠ "" ∧ 50 < ("A study of X." : String).length then
        pyStrip "A study of X." else "Abstract not found" :=
  c7_meta_description_threshold wMeta "https://example.com" pageMeta "" "A study of X."
    rfl rfl rfl rfl

/- ---------------------------------------------------------------------
   Claim C8: the HTML report.
--------------------------------------------------------------------- -/

/-- Claim C8, counterexample: the Title column of the HTML table is NOT
the stored title.  For an `arXiv:` source whose scrape stored the real
paper title, `create_output_html` recomputes the name with
`extract_title_from_url(source)` at render time; that call cannot resolve
an `arXiv:`-prefixed token (it is not a URL) and renders
`"Unknown Title"` instead of the stored `"Real Paper Title"`. -/
theorem c8_title_reresolved_counterexample :
    (process_links_and_dois wArxiv "" [] [] ["arXiv:2301.01234"]).lookup
        "arXiv:2301.01234" = some ⟨"Real Paper Title", "An abstract."⟩ ∧
    create_output_html wArxiv (process_links_and_dois wArxiv "" [] [] ["arXiv:2301.01234"]) =
      some [(1, "Unknown Title", "An abstract....", "arXiv:2301.01234")] ∧
    ("Unknown Title" : String) ≠ "Real Paper Title" := by
  decide

/-- For every entry of the metadata dict, the generated HTML table has a
row whose Name cell is the render-time `extract_title_from_url` result
and whose Abstract cell is the stored abstract truncated to 500
characters with an appended ellipsis. -/
theorem htmlRow_mem_enumFrom (w : World) :
    ∀ (md : List (String × MetaRec)) (k : Nat) (s : String) (r : MetaRec),
      (s, r) ∈ md →
      ∃ idx, htmlRow w idx s r ∈
        (md.enumFrom k).map (fun p => htmlRow w (p.1 + 1) p.2.1 p.2.2) := by
  intro md
  induction md with
  | nil => intro k s r h; exact absurd h (List.not_mem_nil _)
  | cons a rest ih =>
      intro k s r h
      rcases List.mem_cons.mp h with he | hm
      · exact ⟨k + 1, by rw [← he]; simp [List.enumFrom]⟩
      · obtain ⟨idx, hx⟩ := ih (k + 1) s r hm
        exact ⟨idx, by simp only [List.enumFrom, List.map_cons]; exact List.mem_cons_of_mem _ hx⟩

/-- Claim C8, amended: the Abstract column of the HTML report is the
stored abstract truncated to 500 characters (plus ellipsis), but the
Title column is recomputed by calling `extract_title_from_url` on the
source at render time — it is not taken from the stored record. -/
theorem c8_html_render (w : World) (md : List (String × MetaRec)) (s : String)
    (r : MetaRec) (h : (s, r) ∈ md) :
    ∃ rows, create_output_html w md = some rows ∧
      ∃ idx, (idx, extract_title_from_url w s, strTake r.abstract 500 ++ "...", s) ∈ rows := by
  have hne : md.isEmpty = false := by
    cases md with
    | nil => exact absurd h (List.not_mem_nil _)
    | cons a rest => rfl
  refine ⟨md.enum.map (fun p => htmlRow w (p.1 + 1) p.2.1 p.2.2), ?_, ?_⟩
  · simp [create_output_html, hne]
  · have := htmlRow_mem_enumFrom w md 0 s r h
    simpa [List.enum, htmlRow] using this

theorem c8_html_render_witness :
    ∃ rows,
      create_output_html wArxiv
          [("arXiv:2301.01234", ⟨"Real Paper Title", "An abstract."⟩)] = some rows ∧
      ∃ idx, (idx, extract_title_from_url wArxiv "arXiv:2301.01234",
              strTake (MetaRec.mk "Real Paper Title" "An abstract.").abstract 500 ++ "...",
              "arXiv:2301.01234") ∈ rows :=
  c8_html_render wArxiv [("arXiv:2301.01234", ⟨"Real Paper Title", "An abstract."⟩)]
    "arXiv:2301.01234" ⟨"Real Paper Title", "An abstract."⟩ (by decide)

/- ---------------------------------------------------------------------
   Claim C9: failed PDF text extraction ends the run gracefully.
--------------------------------------------------------------------- -/

/-- Claim C9: when the PDF read raises, the text is the empty string,
extraction over it yields three empty collections, the metadata dict
stays empty, and neither output file is produced. -/
theorem c9_empty_text_graceful (w : World) :
    extract_text_from_pdf none = "" ∧
    extract_links_and_dois "" = ([], [], []) ∧
    process_links_and_dois w "" [] [] [] = [] ∧
    workflow w none = (none, none) :=
  ⟨rfl, rfl, rfl, rfl⟩

/- ---------------------------------------------------------------------
   Claim C10: truncation bounds of the rendered reports.
--------------------------------------------------------------------- -/

theorem strTake_length_le (s : String) (n : Nat) : (strTake s n).length ≤ n := by
  show (s.data.take n).length ≤ n
  rw [List.length_take]
  exact Nat.min_le_left _ _

/-- Claim C10: in both rendered reports the abstract text placed before
the appended ellipsis is at most 500 characters, and in the PDF report
the source placed before its ellipsis (when one is appended) is at most
100 characters. -/
theorem c10_truncation_bounds (w : World) (idx : Nat) (source : String) (info : MetaRec) :
    (∃ a, (pdfRow idx source info).2 = "Abstract: " ++ a ++ "..." ∧ a.length ≤ 500) ∧
    ((∃ c, truncatedSource source = c ++ "..." ∧ c.length ≤ 100) ∨
      (truncatedSource source = source ∧ source.length ≤ 100)) ∧
    (∃ a, (htmlRow w idx source info).2.2.1 = a ++ "..." ∧ a.length ≤ 500) := by
  refine ⟨⟨strTake info.abstract 500, rfl, strTake_length_le _ _⟩, ?_,
          ⟨strTake info.abstract 500, rfl, strTake_length_le _ _⟩⟩
  by_cases h : 100 < source.length
  · exact Or.inl ⟨strTake source 100, by simp [truncatedSource, h], strTake_length_le _ _⟩
  · exact Or.inr ⟨by simp [truncatedSource, h], by omega⟩

/- ---------------------------------------------------------------------
   Claim C6: well-formedness of the extracted collections.
--------------------------------------------------------------------- -/

theorem isWS_true_elim (c : Char) (h : isWS c = true) :
    c = ' ' ∨ c = '\t' ∨ c = '\n' ∨ c = '\r' ∨ c = Char.ofNat 11 ∨ c = Char.ofNat 12 := by
  have h2 := h
  simp only [isWS, Bool.or_eq_true, decide_eq_true_eq] at h2
  tauto

theorem digit_not_ws (c : Char) (h : c.isDigit = true) : isWS c = false := by
  cases hw : isWS c
  · rfl
  · rcases isWS_true_elim c hw with h1 | h1 | h1 | h1 | h1 | h1 <;> subst h1 <;>
      exact absurd h (by decide)

theorem doiBody_not_ws (c : Char) (h : doiBodyChar c = true) : isWS c = false := by
  cases hw : isWS c
  · rfl
  · rcases isWS_true_elim c hw with h1 | h1 | h1 | h1 | h1 | h1 <;> subst h1 <;>
      exact absurd h (by decide)

theorem head?_dropWhile_false (p : Char → Bool) :
    ∀ (l : List Char) (c : Char), (l.dropWhile p).head? = some c → p c = false := by
  intro l
  induction l with
  | nil => intro c h; cases h
  | cons a as ih =>
      intro c h
      rw [List.dropWhile_cons] at h
      by_cases hp : p a
      · rw [if_pos hp] at h; exact ih c h
      · rw [if_neg hp] at h
        simp at h
        rw [← h]
        exact Bool.of_not_eq_true hp

theorem mem_of_mem_dropWhile (p : Char → Bool) :
    ∀ (l : List Char) (c : Char), c ∈ l.dropWhile p → c ∈ l := by
  intro l
  induction l with
  | nil => intro c h; exact h
  | cons a as ih =>
      intro c h
      rw [List.dropWhile_cons] at h
      by_cases hp : p a
      · rw [if_pos hp] at h; exact List.mem_cons_of_mem a (ih c h)
      · rw [if_neg hp] at h; exact h

theorem mem_of_head? (l : List Char) (c : Char) (h : l.head? = some c) : c ∈ l := by
  cases l with
  | nil => cases h
  | cons a as => simp at h; simp [h]

theorem mem_of_getLast? (l : List Char) (c : Char) (h : l.getLast? = some c) : c ∈ l := by
  rw [← List.head?_reverse] at h
  exact List.mem_reverse.mp (mem_of_head? l.reverse c h)

theorem mem_of_mem_stripBoth (l : List Char) (c : Char) (h : c ∈ stripBoth l) : c ∈ l := by
  unfold stripBoth at h
  rw [List.mem_reverse] at h
  have h2 := mem_of_mem_dropWhile _ _ _ h
  rw [List.mem_reverse] at h2
  exact mem_of_mem_dropWhile _ _ _ h2

theorem stripBoth_getLast_not_strip (l : List Char) (c : Char)
    (h : (stripBoth l).getLast? = some c) : isStripChar c = false := by
  unfold stripBoth at h
  rw [List.getLast?_reverse] at h
  exact head?_dropWhile_false _ _ _ h

theorem findallAux_mem {m : List Char → Option (List Char × List Char)}
    {P : List Char → Prop}
    (hm : ∀ cs mt rest, m cs = some (mt, rest) → P mt) :
    ∀ (fuel : Nat) (cs : List Char) (x : List Char), x ∈ findallAux m fuel cs → P x := by
  intro fuel
  induction fuel with
  | zero => intro cs x h; exact absurd h (List.not_mem_nil _)
  | succ n ih =>
      intro cs x h
      cases cs with
      | nil => exact absurd h (List.not_mem_nil _)
      | cons c cs2 =>
          cases hmc : m (c :: cs2) with
          | some pr =>
              obtain ⟨mt, rest⟩ := pr
              simp only [findallAux, hmc, List.mem_cons] at h
              rcases h with h | h
              · subst h; exact hm _ _ _ hmc
              · exact ih rest x h
          | none =>
              simp only [findallAux, hmc] at h
              exact ih cs2 x h

theorem httpTail_spec (lit r mt rest : List Char)
    (hlit : ∀ c ∈ lit, isWS c = false)
    (h : httpTail lit r = some (mt, rest)) :
    ∀ c ∈ mt, isWS c = false := by
  unfold httpTail at h
  by_cases he : (r.takeWhile (fun c => !(isWS c))).isEmpty
  · simp [he] at h
  · simp only [he, if_neg, Bool.false_eq_true, not_false_iff, if_false, Option.some.injEq,
      Prod.mk.injEq] at h
    intro c hc
    rw [← h.1] at hc
    rcases List.mem_append.mp hc with h1 | h2
    · exact hlit c h1
    · have := List.mem_takeWhile_imp h2
      simpa using this

theorem matchHttp_spec (cs mt rest : List Char) (h : matchHttp cs = some (mt, rest)) :
    ∀ c ∈ mt, isWS c = false := by
  unfold matchHttp at h
  split at h
  · exact httpTail_spec _ _ _ _ (by decide) h
  · exact httpTail_spec _ _ _ _ (by decide) h
  · simp at h

theorem matchWww_spec (cs mt rest : List Char) (h : matchWww cs = some (mt, rest)) :
    ∀ c ∈ mt, isWS c = false := by
  unfold matchWww at h
  split at h
  · exact httpTail_spec _ _ _ _ (by decide) h
  · simp at h

theorem matchDoiOrg_spec (cs mt rest : List Char) (h : matchDoiOrg cs = some (mt, rest)) :
    ∀ c ∈ mt, isWS c = false := by
  unfold matchDoiOrg at h
  split at h
  · exact httpTail_spec _ _ _ _ (by decide) h
  · simp at h

theorem takeWhile_eq_of_append (p : Char → Bool) :
    ∀ (l1 l2 : List Char), (∀ c ∈ l1, p c = true) →
      (∀ c, l2.head? = some c → p c = false) →
      (l1 ++ l2).takeWhile p = l1 := by
  intro l1
  induction l1 with
  | nil =>
      intro l2 _ h2
      cases l2 with
      | nil => rfl
      | cons b bs =>
          have hb := h2 b rfl
          simp [List.takeWhile_cons, hb]
  | cons a as ih =>
      intro l2 h1 h2
      have ha := h1 a (List.mem_cons_self _ _)
      simp [List.takeWhile_cons, ha,
        ih l2 (fun c hc => h1 c (List.mem_cons_of_mem _ hc)) h2]

theorem matchDoi_spec (cs mt rest : List Char) (h : matchDoi cs = some (mt, rest)) :
    (∀ c ∈ mt, isWS c = false) ∧ doiShape mt = true := by
  unfold matchDoi at h
  split at h
  case h_1 r =>
    by_cases h49 : 4 ≤ (r.takeWhile (fun c => c.isDigit)).length ∧
        (r.takeWhile (fun c => c.isDigit)).length ≤ 9
    · rw [if_pos h49] at h
      split at h
      next r3 heq =>
        by_cases hbe : (r3.takeWhile doiBodyChar).isEmpty
        · rw [if_pos hbe] at h; simp at h
        · rw [if_neg hbe] at h
          simp only [Option.some.injEq, Prod.mk.injEq] at h
          obtain ⟨hmt, _⟩ := h
          set ds := r.takeWhile (fun c => c.isDigit) with hds
          set body := r3.takeWhile doiBodyChar with hbody
          have hdsall : ∀ c ∈ ds, c.isDigit = true := fun c hc => List.mem_takeWhile_imp hc
          have hbodyall : ∀ c ∈ body, doiBodyChar c = true := fun c hc => List.mem_takeWhile_imp hc
          constructor
          · intro c hc
            rw [← hmt] at hc
            simp only [List.mem_cons, List.mem_append] at hc
            rcases hc with h1 | h1 | h1 | h1
            · subst h1; decide
            · subst h1; decide
            · subst h1; decide
            · rcases h1 with h2 | h3 | h3
              · exact digit_not_ws c (hdsall c h2)
              · subst h3; decide
              · exact doiBody_not_ws c (hbodyall c h3)
          · rw [← hmt]
            have htw : (ds ++ '/' :: body).takeWhile (fun c => c.isDigit) = ds := by
              apply takeWhile_eq_of_append _ _ _ hdsall
              intro c hc
              simp at hc
              subst hc
              decide
            have hdr : (ds ++ '/' :: body).drop ds.length = '/' :: body :=
              List.drop_left ds ('/' :: body)
            simp only [doiShape, htw, hdr]
            have h1 : (4 ≤ ds.length && ds.length ≤ 9) = true := by
              simp [h49.1, h49.2]
            have h2 : (!body.isEmpty && body.all doiBodyChar) = true := by
              simp only [Bool.and_eq_true, Bool.not_eq_true]
              constructor
              · simpa using hbe
              · exact List.all_eq_true.mpr (fun c hc => hbodyall c hc)
            simp [h1, h2]
      next => simp at h
    · rw [if_neg h49] at h; simp at h
  case h_2 => simp at h

theorem matchArxiv_spec (cs mt rest : List Char) (h : matchArxiv cs = some (mt, rest)) :
    ∀ c ∈ mt, isWS c = false := by
  unfold matchArxiv at h
  split at h
  case h_1 d1 d2 d3 d4 r2 =>
    by_cases hd : (d1.isDigit && d2.isDigit && d3.isDigit && d4.isDigit) = true
    · rw [if_pos hd] at h
      simp only [Bool.and_eq_true] at hd
      obtain ⟨⟨⟨hd1, hd2⟩, hd3⟩, hd4⟩ := hd
      have hds : ∀ c ∈ r2.takeWhile (fun c => c.isDigit), c.isDigit = true :=
        fun c hc => List.mem_takeWhile_imp hc
      by_cases h5 : 5 ≤ (r2.takeWhile (fun c => c.isDigit)).length
      · rw [if_pos h5] at h
        simp only [Option.some.injEq, Prod.mk.injEq] at h
        obtain ⟨hmt, _⟩ := h
        intro c hc
        rw [← hmt] at hc
        simp only [List.mem_append, List.mem_cons, List.not_mem_nil, or_false] at hc
        rcases hc with (h1 | h1 | h1 | h1 | h1 | h1 | h1 | h1 | h1 | h1 | h1) | h1
        · subst h1; decide
        · subst h1; decide
        · subst h1; decide
        · subst h1; decide
        · subst h1; decide
        · subst h1; decide
        · subst h1; exact digit_not_ws c hd1
        · subst h1; exact digit_not_ws c hd2
        · subst h1; exact digit_not_ws c hd3
        · subst h1; exact digit_not_ws c hd4
        · subst h1; decide
        · exact digit_not_ws c (hds c (List.take_subset 5 _ h1))
      · rw [if_neg h5] at h
        by_cases h4 : (r2.takeWhile (fun c => c.isDigit)).length = 4
        · rw [if_pos h4] at h
          simp only [Option.some.injEq, Prod.mk.injEq] at h
          obtain ⟨hmt, _⟩ := h
          intro c hc
          rw [← hmt] at hc
          simp only [List.mem_append, List.mem_cons, List.not_mem_nil, or_false] at hc
          rcases hc with (h1 | h1 | h1 | h1 | h1 | h1 | h1 | h1 | h1 | h1 | h1) | h1
          · subst h1; decide
          · subst h1; decide
          · subst h1; decide
          · subst h1; decide
          · subst h1; decide
          · subst h1; decide
          · subst h1; exact digit_not_ws c hd1
          · subst h1; exact digit_not_ws c hd2
          · subst h1; exact digit_not_ws c hd3
          · subst h1; exact digit_not_ws c hd4
          · subst h1; decide
          · exact digit_not_ws c (hds c h1)
        · rw [if_neg h4] at h; simp at h
    · rw [if_neg hd] at h; simp at h
  case h_2 => simp at h

theorem links_char_spec (text : String) (s : String)
    (h : s ∈ (extract_links_and_dois text).1) :
    (∀ c ∈ s.data, isWS c = false) ∧
    (∀ c, s.data.getLast? = some c → isStripChar c = false) := by
  simp only [extract_links_and_dois, List.mem_dedup, List.mem_map, List.mem_append] at h
  obtain ⟨l, ⟨l0, hl0, hstrip⟩, hmk⟩ := h
  have hall : ∀ c ∈ l0, isWS c = false := by
    rcases hl0 with (h1 | h1) | h1
    · exact fun c hc => findallAux_mem (fun a b r hh => matchHttp_spec a b r hh) _ _ l0 h1 c hc
    · exact fun c hc => findallAux_mem (fun a b r hh => matchWww_spec a b r hh) _ _ l0 h1 c hc
    · exact fun c hc => findallAux_mem (fun a b r hh => matchDoiOrg_spec a b r hh) _ _ l0 h1 c hc
  have hdata : s.data = stripBoth l0 := by rw [← hmk, ← hstrip]
  constructor
  · intro c hc
    rw [hdata] at hc
    exact hall c (mem_of_mem_stripBoth _ _ hc)
  · intro c hc
    rw [hdata] at hc
    exact stripBoth_getLast_not_strip _ _ hc

theorem dois_char_spec (text : String) (s : String)
    (h : s ∈ (extract_links_and_dois text).2.1) :
    (∀ c ∈ s.data, isWS c = false) ∧ doiShape s.data = true := by
  simp only [extract_links_and_dois, List.mem_dedup, List.mem_map] at h
  obtain ⟨l, hl, hmk⟩ := h
  have hdata : s.data = l := by rw [← hmk]
  have hspec := findallAux_mem
    (P := fun x => (∀ c ∈ x, isWS c = false) ∧ doiShape x = true)
    (fun a b r hh => matchDoi_spec a b r hh) _ _ l hl
  rw [hdata]
  exact hspec

theorem arxiv_char_spec (text : String) (s : String)
    (h : s ∈ (extract_links_and_dois text).2.2) :
    ∀ c ∈ s.data, isWS c = false := by
  simp only [extract_links_and_dois, List.mem_dedup, List.mem_map] at h
  obtain ⟨l, hl, hmk⟩ := h
  have hdata : s.data = l := by rw [← hmk]
  rw [hdata]
  exact findallAux_mem (fun a b r hh => matchArxiv_spec a b r hh) _ _ l hl

/-- Claim C6: for every input text the three extracted collections are
well-formed — no duplicates, no entry with leading or trailing
whitespace, no link ending in a stripped punctuation character, and every
DOI entry matching the DOI pattern in full. -/
theorem c6_extraction_wellformed (text : String) :
    ((extract_links_and_dois text).1.Nodup ∧
     (extract_links_and_dois text).2.1.Nodup ∧
     (extract_links_and_dois text).2.2.Nodup) ∧
    (∀ s : String,
       (s ∈ (extract_links_and_dois text).1 ∨ s ∈ (extract_links_and_dois text).2.1 ∨
        s ∈ (extract_links_and_dois text).2.2) →
       (∀ c, s.data.head? = some c → isWS c = false) ∧
       (∀ c, s.data.getLast? = some c → isWS c = false)) ∧
    (∀ s : String, s ∈ (extract_links_and_dois text).1 →
       ∀ c ∈ stripChars, s.data.getLast? ≠ some c) ∧
    (∀ s : String, s ∈ (extract_links_and_dois text).2.1 → doiShape s.data = true) := by
  refine ⟨⟨?_, ?_, ?_⟩, ?_, ?_, ?_⟩
  · exact List.nodup_dedup _
  · exact List.nodup_dedup _
  · exact List.nodup_dedup _
  · intro s hs
    have hall : ∀ c ∈ s.data, isWS c = false := by
      rcases hs with h | h | h
      · exact (links_char_spec text s h).1
      · exact (dois_char_spec text s h).1
      · exact arxiv_char_spec text s h
    exact ⟨fun c hc => hall c (mem_of_head? _ _ hc),
           fun c hc => hall c (mem_of_getLast? _ _ hc)⟩
  · intro s hs c hc heq
    have := (links_char_spec text s hs).2 c heq
    rw [isStripChar] at this
    simp [hc] at this
  · intro s hs
    exact (dois_char_spec text s hs).2

theorem c6_extraction_wellformed_witness :
    doiShape ("10.1000/xyz123" : String).data = true :=
  (c6_extraction_wellformed
      "See https://example.com/paper.pdf, and DOI 10.1000/xyz123 for details. arXiv:2301.01234 is also relevant.").2.2.2
    "10.1000/xyz123" (by decide)
